import Mathlib

/-!
Verification development for the MHK3-Registration repository: a barcode
scanning client plus three near-identical backend variants (a standalone
Express server, a Cloudflare Worker, and Netlify functions) that proxy a
Notion database (search pages, patch a property, and a scan-and-mark
attendance flow).

The definitions below are shallow embeddings of the JavaScript and
TypeScript functions of the repository.  JS strings are modelled as Lean
String (lists of characters), JS numbers that matter to the claims as Int
or Rat (with an explicit NaN constructor where a claim is about NaN), and
untyped JSON values as the inductive type Json.  Each definition carries a
comment naming the source function it embeds.
-/

/-! ## Character and whitespace infrastructure -/

/-- The space character, written via its code point to keep the file free of
character literals. -/
def spaceChar : Char := Char.ofNat 32

/-- The hyphen character. -/
def hyphenChar : Char := Char.ofNat 45

/-- The underscore character. -/
def underscoreChar : Char := Char.ofNat 95

/-- Membership in the JS regular-expression whitespace class backslash-s
(space, tab, line feed, vertical tab, form feed, carriage return, NBSP and
the Unicode space separators).  Used by the sources via trim and the
whitespace-collapsing regular expressions. -/
def jsIsWs (c : Char) : Bool :=
  c == Char.ofNat 32 || c == Char.ofNat 9 || c == Char.ofNat 10 ||
  c == Char.ofNat 11 || c == Char.ofNat 12 || c == Char.ofNat 13 ||
  c == Char.ofNat 160 || c == Char.ofNat 0x1680 ||
  (0x2000 ≤ c.toNat && c.toNat ≤ 0x200A) ||
  c == Char.ofNat 0x2028 || c == Char.ofNat 0x2029 ||
  c == Char.ofNat 0x202F || c == Char.ofNat 0x205F ||
  c == Char.ofNat 0x3000 || c == Char.ofNat 0xFEFF

/-- JS String.prototype.trim over a character list: drop whitespace from both
ends. -/
def jsTrimList (l : List Char) : List Char :=
  ((l.dropWhile jsIsWs).reverse.dropWhile jsIsWs).reverse

/-- JS String.prototype.trim on strings. -/
def jsTrimStr (s : String) : String := String.mk (jsTrimList s.data)

/-- Replacing every whitespace run by the empty string, as in
replace of backslash-s-plus by the empty string: every whitespace character
is removed. -/
def removeWsRuns : List Char → List Char
  | [] => []
  | c :: cs => if jsIsWs c then removeWsRuns cs else c :: removeWsRuns cs

/-- Replace every maximal whitespace run by a single space, as in replace of
backslash-s-plus by one space.  The Boolean argument records whether the
previous character belonged to a whitespace run whose replacement space has
already been emitted. -/
def collapseWsAux : Bool → List Char → List Char
  | _, [] => []
  | inRun, c :: cs =>
    if jsIsWs c then
      if inRun then collapseWsAux true cs
      else spaceChar :: collapseWsAux true cs
    else c :: collapseWsAux false cs

/-- Collapse whitespace runs to single spaces. -/
def collapseWs (l : List Char) : List Char := collapseWsAux false l

/-- JS String.prototype.toLowerCase restricted to the character-wise case
mapping (sufficient for the ASCII keys the sources compare). -/
def jsToLowerList (l : List Char) : List Char := l.map Char.toLower

/-! ## The normalization functions of the sources -/

/-- Embeds normalizeForMatch of src/server/index.mjs lines 41 to 45 (and the
identical normalize of src/netlify/functions/notion-scan.mjs lines 33 to 35):
String(value).trim().replace(backslash-s-plus, empty). -/
def normalizeForMatch (s : String) : String :=
  String.mk (removeWsRuns (jsTrimList s.data))

/-- True when the character is removed by the normalizeKey regular
expression class of whitespace, hyphen and underscore. -/
def isKeyJunk (c : Char) : Bool :=
  jsIsWs c || c == hyphenChar || c == underscoreChar

/-- Removal of every whitespace, hyphen or underscore character, as in
replace of the class by the empty string. -/
def removeKeyJunk : List Char → List Char
  | [] => []
  | c :: cs => if isKeyJunk c then removeKeyJunk cs else c :: removeKeyJunk cs

/-- Embeds normalizeKey of src/server/index.mjs lines 308 to 313 (identical
in the Netlify scan function of src/unnamed/part_003 lines 50 to 55):
String(value).toLowerCase().trim().replace(class of whitespace hyphen
underscore, empty). -/
def normalizeKey (s : String) : String :=
  String.mk (removeKeyJunk (jsTrimList (jsToLowerList s.data)))

/-! ## splitFullName -/

/-- JS String.prototype.split on a single space character.  Always returns at
least one part; parts contain no space. -/
def splitSpace : List Char → List (List Char)
  | [] => [[]]
  | c :: cs =>
    if c = spaceChar then [] :: splitSpace cs
    else
      match splitSpace cs with
      | [] => [[c]]
      | p :: ps => (c :: p) :: ps

/-- JS Array.prototype.join with a single space, over character lists. -/
def joinParts : List (List Char) → List Char
  | [] => []
  | [p] => p
  | p :: ps => p ++ spaceChar :: joinParts ps

/-- The trimmed, whitespace-collapsed form an input takes inside
splitFullName before splitting. -/
def canonicalFullName (s : String) : List Char :=
  collapseWs (jsTrimList s.data)

/-- Embeds splitFullName of src/server/index.mjs lines 415 to 421 (identical
in src/unnamed/part_003 lines 123 to 129): trim, collapse whitespace runs to
single spaces, split on space; one part gives firstName only, several parts
give the first as firstName and the rest joined by spaces as lastName. -/
def splitFullName (fullName : String) : String × String :=
  let s := canonicalFullName fullName
  if s = [] then ("", "")
  else
    match splitSpace s with
    | [] => ("", "")
    | [p] => (String.mk p, "")
    | p :: ps => (String.mk p, String.mk (joinParts ps))

/-! ## JS Number coercion of strings -/

/-- Numeric value of a list of decimal digit characters. -/
def digitsToNat : List Char → Nat
  | [] => 0
  | c :: cs => digitsToNat cs + c.toNat.sub 48 * 10 ^ cs.length

/-- Parse an unsigned decimal literal (digits with an optional single point),
returning none when the shape is not numeric.  Models the decimal fragment
of JS Number conversion; the sources only ever receive decimal text here. -/
def parseDecimal (l : List Char) : Option ℚ :=
  let intPart := l.takeWhile Char.isDigit
  let rest := l.dropWhile Char.isDigit
  match rest with
  | [] => if intPart = [] then none else some (digitsToNat intPart : ℚ)
  | d :: rest2 =>
    if d = Char.ofNat 46 then
      let fracPart := rest2.takeWhile Char.isDigit
      let rest3 := rest2.dropWhile Char.isDigit
      if rest3 ≠ [] then none
      else if intPart = [] ∧ fracPart = [] then none
      else some ((digitsToNat intPart : ℚ) +
        (digitsToNat fracPart : ℚ) / (10 : ℚ) ^ fracPart.length)
    else none

/-- JS Number(string) on the decimal fragment: trims, maps the empty string
to zero, handles an optional sign; none models NaN. -/
def jsNumberOfString (s : String) : Option ℚ :=
  let t := jsTrimList s.data
  match t with
  | [] => some 0
  | c :: cs =>
    if c = Char.ofNat 43 then parseDecimal cs
    else if c = hyphenChar then (parseDecimal cs).map Neg.neg
    else parseDecimal t

/-! ## Untyped JSON values

The backends traffic in untyped JSON from the Notion API.  The claims about
the field extractor quantify over arbitrarily malformed payloads, so the
model uses a generic JSON value type.  JSON numbers are modelled as
integers, which covers every numeric payload the claims mention. -/

/-- A JSON value. -/
inductive Json where
  | jnull
  | jbool (b : Bool)
  | jnum (n : Int)
  | jstr (s : String)
  | jarr (elems : List Json)
  | jobj (fields : List (String × Json))

/-- Field lookup inside an object field list. -/
def lookupField : List (String × Json) → String → Option Json
  | [], _ => none
  | (k2, v) :: rest, k => if k2 = k then some v else lookupField rest k

/-- JS property access on a JSON value: an object yields the named field when
present; every other value (or a missing field) yields none, which models the
JS undefined result of the optional-chaining accesses in the sources. -/
def jsonField : Json → String → Option Json
  | .jobj fields, k => lookupField fields k
  | _, _ => none

/-- JS truthiness of a JSON value. -/
def jsTruthy : Json → Bool
  | .jnull => false
  | .jbool b => b
  | .jnum n => n != 0
  | .jstr s => s != ""
  | .jarr _ => true
  | .jobj _ => true

/-- JS Array.prototype.join over string parts. -/
def joinWith (sep : String) : List String → String
  | [] => ""
  | [x] => x
  | x :: xs => x ++ sep ++ joinWith sep xs

mutual
/-- JS String() coercion of a JSON value (arrays join their elements with
commas, null elements becoming empty, objects print as object tags). -/
def jsToString : Json → String
  | .jnull => "null"
  | .jbool b => if b then "true" else "false"
  | .jnum n => toString n
  | .jstr s => s
  | .jarr xs => jsArrayToString xs
  | .jobj _ => "[object Object]"

/-- Elements of an array joined by commas under String() coercion; a null
element contributes the empty string. -/
def jsArrayToString : List Json → String
  | [] => ""
  | [Json.jnull] => ""
  | [x] => jsToString x
  | Json.jnull :: xs => "," ++ jsArrayToString xs
  | x :: xs => jsToString x ++ "," ++ jsArrayToString xs
end

/-- A looked-up field is structurally smaller than the field list. -/
theorem sizeOf_lookupField {fields : List (String × Json)} {k : String}
    {v : Json} (h : lookupField fields k = some v) : sizeOf v < sizeOf fields := by
  induction fields with
  | nil => simp [lookupField] at h
  | cons kv rest ih =>
    obtain ⟨k2, v2⟩ := kv
    by_cases hk : k2 = k
    · simp [lookupField, hk] at h
      subst h
      simp only [List.cons.sizeOf_spec, Prod.mk.sizeOf_spec]
      omega
    · simp [lookupField, hk] at h
      have := ih h
      simp only [List.cons.sizeOf_spec]
      omega

/-- A field of a JSON value is structurally smaller than the value. -/
theorem sizeOf_jsonField {j : Json} {k : String} {v : Json}
    (h : jsonField j k = some v) : sizeOf v < sizeOf j := by
  cases j with
  | jobj fields =>
    have := sizeOf_lookupField h
    simp only [Json.jobj.sizeOf_spec]
    omega
  | jnull => simp [jsonField] at h
  | jbool b => simp [jsonField] at h
  | jnum n => simp [jsonField] at h
  | jstr s => simp [jsonField] at h
  | jarr xs => simp [jsonField] at h

/-! ## The plain-text rendering of property values -/

/-- One text run: t.plain_text coerced, absent or null runs becoming empty
(the map over title and rich text runs in propertyPlainText). -/
def plainTextRun (t : Json) : String :=
  match jsonField t "plain_text" with
  | none => ""
  | some Json.jnull => ""
  | some v => jsToString v

/-- Title or rich text: join the runs and trim.  A non-array field would make
the source throw into its catch, yielding the empty string. -/
def textRunsText (field : Option Json) : String :=
  match field with
  | some (Json.jarr ts) => jsTrimStr (String.join (ts.map plainTextRun))
  | _ => ""

/-- The number rendering: empty for null or undefined, String() otherwise. -/
def numberFieldText (f : Option Json) : String :=
  match f with
  | none => ""
  | some Json.jnull => ""
  | some v => jsToString v

/-- The checkbox rendering: String() of a boolean, empty otherwise. -/
def checkboxText (f : Option Json) : String :=
  match f with
  | some (Json.jbool b) => if b then "true" else "false"
  | _ => ""

/-- container.key rendered when truthy, as in prop.status and name, or
prop.date and start. -/
def namedFieldText (container : Option Json) (key : String) : String :=
  match container with
  | some c =>
    match jsonField c key with
    | some v => if jsTruthy v then jsTrimStr (jsToString v) else ""
    | none => ""
  | none => ""

/-- A field rendered when truthy (email, phone number, url). -/
def truthyText (f : Option Json) : String :=
  match f with
  | some v => if jsTruthy v then jsTrimStr (jsToString v) else ""
  | none => ""

/-- multi select and people: member names, falsy names dropped, joined by
comma space and trimmed. -/
def memberNames (f : Option Json) : String :=
  match f with
  | some (Json.jarr xs) =>
    jsTrimStr (joinWith ", " (((xs.map (fun s =>
      match jsonField s "name" with
      | none => Json.jstr ""
      | some Json.jnull => Json.jstr ""
      | some v => v)).filter jsTruthy).map jsToString))
  | _ => ""

/-- The formula branch of propertyPlainText. -/
def formulaText (f : Option Json) : String :=
  match f with
  | some fo =>
    match jsonField fo "type" with
    | some (Json.jstr ft) =>
      if ft = "string" then
        match jsonField fo "string" with
        | some (Json.jstr s) => jsTrimStr s
        | _ => ""
      else if ft = "number" then numberFieldText (jsonField fo "number")
      else if ft = "boolean" then
        match jsonField fo "boolean" with
        | some (Json.jbool b) => if b then "true" else "false"
        | _ => ""
      else if ft = "date" then namedFieldText (jsonField fo "date") "start"
      else ""
    | _ => ""
  | none => ""

mutual
/-- Embeds propertyPlainText of src/server/index.mjs lines 315 to 378
(identical in src/unnamed/part_003 lines 57 to 121): dispatch on the type
discriminator, render the payload as plain text, recurse one level into
rollup arrays; every malformed shape (including the paths where the source
would throw into its catch) yields the empty string. -/
def propertyPlainText (prop : Json) : String :=
  match jsonField prop "type" with
  | some (Json.jstr ty) =>
    if ty = "title" then textRunsText (jsonField prop "title")
    else if ty = "rich_text" then textRunsText (jsonField prop "rich_text")
    else if ty = "number" then numberFieldText (jsonField prop "number")
    else if ty = "checkbox" then checkboxText (jsonField prop "checkbox")
    else if ty = "status" then namedFieldText (jsonField prop "status") "name"
    else if ty = "date" then namedFieldText (jsonField prop "date") "start"
    else if ty = "select" then namedFieldText (jsonField prop "select") "name"
    else if ty = "multi_select" then memberNames (jsonField prop "multi_select")
    else if ty = "people" then memberNames (jsonField prop "people")
    else if ty = "email" then truthyText (jsonField prop "email")
    else if ty = "phone_number" then truthyText (jsonField prop "phone_number")
    else if ty = "url" then truthyText (jsonField prop "url")
    else if ty = "formula" then formulaText (jsonField prop "formula")
    else if ty = "rollup" then
      match hr : jsonField prop "rollup" with
      | some r =>
        (match jsonField r "type" with
         | some (Json.jstr rt) =>
           if rt = "number" then numberFieldText (jsonField r "number")
           else if rt = "date" then namedFieldText (jsonField r "date") "start"
           else if rt = "array" then
             match ha : jsonField r "array" with
             | some (Json.jarr items) =>
               jsTrimStr (joinWith " " ((rollupItemTexts items).filter (fun t => t ≠ "")))
             | _ => ""
           else ""
         | _ => "")
      | none => ""
    else ""
  | _ => ""
termination_by sizeOf prop
decreasing_by
  have h1 := sizeOf_jsonField hr
  have h2 := sizeOf_jsonField ha
  simp only [Json.jarr.sizeOf_spec] at h2
  show sizeOf items < sizeOf prop
  omega

/-- The rollup array loop: propertyPlainText of each item. -/
def rollupItemTexts : List Json → List String
  | [] => []
  | x :: xs => propertyPlainText x :: rollupItemTexts xs
termination_by l => sizeOf l
decreasing_by
  · simp only [List.cons.sizeOf_spec]; omega
  · simp only [List.cons.sizeOf_spec]; omega
end

/-- Embeds propertyItemsPlainText of src/server/index.mjs lines 380 to 386
(identical in src/unnamed/part_003 lines 141 to 147): a paginated
per-property response renders its results array joined by spaces, any other
value renders directly. -/
def propertyItemsPlainText (propertyItems : Json) : String :=
  match jsonField propertyItems "results" with
  | some (Json.jarr rs) =>
    jsTrimStr (joinWith " " ((rollupItemTexts rs).filter (fun t => t ≠ "")))
  | _ => propertyPlainText propertyItems

/-! ## Candidate key resolution and extraction -/

/-- Embeds getPropertyByCandidates of src/server/index.mjs lines 388 to 395
(identical in src/unnamed/part_003 lines 131 to 139): normalize the
candidates into a set, walk the property mapping keys in order, return the
first property whose normalized key is in the set. -/
def getPropertyByCandidates (properties : List (String × Json))
    (candidates : List String) : Option Json :=
  let candidateKeys := candidates.map normalizeKey
  (properties.find? (fun kv => candidateKeys.contains (normalizeKey kv.1))).map Prod.snd

/-- Embeds getCandidatePropertyText of src/server/index.mjs lines 397 to 413
(equivalent in src/unnamed/part_003 lines 169 to 183).  The per-property
fetch is modelled by the fetched argument: none models a failing fetch
(caught and mapped to the empty string), some the response payload. -/
def getCandidatePropertyText (properties : List (String × Json))
    (candidates : List String) (fetched : Option Json) : String :=
  let prop := getPropertyByCandidates properties candidates
  let direct := propertyPlainText (prop.getD Json.jnull)
  if direct ≠ "" then direct
  else
    match prop with
    | none => ""
    | some p =>
      match jsonField p "id" with
      | none => ""
      | some pid =>
        if jsTruthy pid then
          match fetched with
          | none => ""
          | some items => propertyItemsPlainText items
        else ""

/-! ## The scan flow

All backend variants run the same resolution: map the search results to
page summaries, filter to exact-title matches under normalizeForMatch, and
dispatch on the number of matches (src/server/index.mjs lines 100 to 127 and
527 to 558, src/netlify/functions/notion-scan.mjs lines 74 to 121,
src/unnamed/part_003 lines 224 to 264). -/

/-- The id, title and url projection of a search result page. -/
structure PageSummary where
  id : String
  title : String
  url : String
deriving DecidableEq, Repr

/-- The exact matches a scan computes: results whose normalized title equals
the normalized scanned id. -/
def exactMatchesOf (scannedId : String) (results : List PageSummary) : List PageSummary :=
  results.filter (fun r => normalizeForMatch r.title == normalizeForMatch scannedId)

/-- The three outcomes of the match resolver: no exact match (carrying the
raw result count), several exact matches (carrying every match), or the
unique match. -/
inductive ScanResult where
  | notFound (resultsCount : Nat)
  | ambiguous (pages : List PageSummary)
  | ok (page : PageSummary)
deriving DecidableEq, Repr

/-- The match resolution shared by every scan handler: zero matches give the
not-found outcome with the raw result count, two or more give the ambiguous
outcome listing every match, exactly one proceeds. -/
def scanResolve (scannedId : String) (results : List PageSummary) : ScanResult :=
  match exactMatchesOf scannedId results with
  | [] => .notFound results.length
  | [p] => .ok p
  | p :: q :: rest => .ambiguous (p :: q :: rest)

/-- The HTTP status each outcome is serialized with. -/
def statusOf : ScanResult → Nat
  | .notFound _ => 404
  | .ambiguous _ => 409
  | .ok _ => 200

/-- One call to the Notion page-update endpoint. -/
structure UpdateCall where
  pageId : String
  propertyName : String
  value : Bool
deriving DecidableEq, Repr

/-- The page-update calls a scan issues: none unless the match is unique, and
for the unique match the constant payload setting the checkbox property
2025-WD to true (src/server/index.mjs lines 120 to 125 and 551 to 558). -/
def updateCallsOf : ScanResult → List UpdateCall
  | .ok p => [⟨p.id, "2025-WD", true⟩]
  | _ => []

/-- A page as stored in the Notion database, restricted to the parts the
scan flow touches: the summary fields and the 2025-WD checkbox. -/
structure StorePage where
  id : String
  title : String
  url : String
  wdChecked : Bool
deriving DecidableEq, Repr

/-- The summary a stored page presents to search. -/
def summaryOf (p : StorePage) : PageSummary := ⟨p.id, p.title, p.url⟩

/-- The search results over a store. -/
def summariesOf (store : List StorePage) : List PageSummary := store.map summaryOf

/-- Applying one update call to the store: the named page has its 2025-WD
checkbox set to the payload value, nothing else changes (the upstream API
guarantee that only named properties are touched). -/
def applyCall (store : List StorePage) (c : UpdateCall) : List StorePage :=
  store.map (fun p =>
    if p.id = c.pageId ∧ c.propertyName = "2025-WD" then { p with wdChecked := c.value } else p)

/-- One scan invocation against a store: resolve over the search results and
apply whatever update calls the outcome issues. -/
def scanStore (scannedId : String) (store : List StorePage) : ScanResult × List StorePage :=
  let r := scanResolve scannedId (summariesOf store)
  (r, (updateCallsOf r).foldl applyCall store)

/-! ## The 200 response bodies of the scan variants -/

/-- The 200 body of the standalone server scan route, src/server/index.mjs
line 127: ok, scannedId, pageId, title. -/
def serverScanOkBody (scannedId pageId title : String) : List (String × Json) :=
  [("ok", Json.jbool true), ("scannedId", Json.jstr scannedId),
   ("pageId", Json.jstr pageId), ("title", Json.jstr title)]

/-- The 200 body of the Netlify scan function of
src/netlify/functions/notion-scan.mjs line 121: ok, scannedId, pageId,
title. -/
def netlifyScanOkBody (scannedId pageId title : String) : List (String × Json) :=
  [("ok", Json.jbool true), ("scannedId", Json.jstr scannedId),
   ("pageId", Json.jstr pageId), ("title", Json.jstr title)]

/-- The 200 body of the worker scan route, src/server/index.mjs lines 581 to
600: ok, apiVersion, scannedId, pageId, title, firstName, lastName,
fullName, doc, plus debugProperties when debug was set. -/
def workerScanOkBody (scannedId pageId title firstName lastName fullName doc : String)
    (debug : Bool) (debugProperties : Json) : List (String × Json) :=
  [("ok", Json.jbool true), ("apiVersion", Json.jstr "2026-02-26.2"),
   ("scannedId", Json.jstr scannedId), ("pageId", Json.jstr pageId),
   ("title", Json.jstr title), ("firstName", Json.jstr firstName),
   ("lastName", Json.jstr lastName), ("fullName", Json.jstr fullName),
   ("doc", Json.jstr doc)] ++
  (if debug then [("debugProperties", debugProperties)] else [])

/-- The 200 body of the extended Netlify scan function of
src/unnamed/part_003 lines 329 to 352: same shape as the worker body. -/
def netlifyScanV2OkBody (scannedId pageId title firstName lastName fullName doc : String)
    (debug : Bool) (debugProperties : Json) : List (String × Json) :=
  [("ok", Json.jbool true), ("apiVersion", Json.jstr "2026-02-26.2"),
   ("scannedId", Json.jstr scannedId), ("pageId", Json.jstr pageId),
   ("title", Json.jstr title), ("firstName", Json.jstr firstName),
   ("lastName", Json.jstr lastName), ("fullName", Json.jstr fullName),
   ("doc", Json.jstr doc)] ++
  (if debug then [("debugProperties", debugProperties)] else [])

/-! ## The property codec

The property-update endpoints accept a JSON value from the request body.
The claims quantify over booleans and strings, which is also the domain the
frontends send, so request values are modelled by ReqValue. -/

/-- A request body value for the property-update endpoints. -/
inductive ReqValue where
  | vbool (b : Bool)
  | vstr (s : String)
deriving DecidableEq, Repr

/-- JS String() of a request value. -/
def reqValueToString : ReqValue → String
  | .vbool b => if b then "true" else "false"
  | .vstr s => s

/-- JS Number() of a request value (none models NaN). -/
def reqValueToNumber : ReqValue → Option ℚ
  | .vbool b => some (if b then 1 else 0)
  | .vstr s => jsNumberOfString s

/-- JS truthiness of a request value. -/
def reqValueTruthy : ReqValue → Bool
  | .vbool b => b
  | .vstr s => s != ""

/-- JS toLowerCase on strings. -/
def jsToLowerStr (s : String) : String := String.mk (jsToLowerList s.data)

/-- The typed update payload a property-update endpoint sends upstream.
pnan and pnull record the payloads the Netlify number branch can produce. -/
inductive PropUpdate where
  | ptitle (content : String)
  | prichText (content : String)
  | pnumber (n : ℚ)
  | pnan
  | pnull
  | pcheckbox (b : Bool)
  | pselect (name : Option String)
  | pstatus (name : Option String)
  | pdate (start : Option String)
deriving DecidableEq, Repr

/-- The checkbox coercion of the standalone server and worker file in
src/server/index.mjs (lines 180 to 187 and 434 to 439): booleans pass
through, any other value stringifies, lowercases, and compares against
true, 1 and yes. -/
def serverCheckboxCoerce (value : ReqValue) : Bool :=
  match value with
  | .vbool b => b
  | v =>
    let s := jsToLowerStr (reqValueToString v)
    s == "true" || s == "1" || s == "yes"

/-- Embeds buildPropertyUpdate of src/server/index.mjs lines 423 to 449 (the
worker file variant; the inline express handler of lines 164 to 203 has the
same semantics with the error returned as a 400).  The number branch fails
explicitly when Number() gives NaN. -/
def serverBuildPropertyUpdate (ty : String) (value : ReqValue) : Except String PropUpdate :=
  match ty with
  | "title" => .ok (.ptitle (reqValueToString value))
  | "rich_text" => .ok (.prichText (reqValueToString value))
  | "number" =>
    match reqValueToNumber value with
    | some n => .ok (.pnumber n)
    | none => .error ("Value is not a number: " ++ reqValueToString value)
  | "checkbox" => .ok (.pcheckbox (serverCheckboxCoerce value))
  | "select" =>
    .ok (.pselect (if reqValueTruthy value then some (reqValueToString value) else none))
  | "status" =>
    .ok (.pstatus (if reqValueTruthy value then some (reqValueToString value) else none))
  | "date" =>
    .ok (.pdate (if reqValueTruthy value then some (reqValueToString value) else none))
  | _ => .error ("Property type not supported by this endpoint: " ++ ty)

/-- Embeds buildPropertyUpdate of src/worker/src/worker.ts lines 79 to 101:
the request value is required to be a string before this runs.  The checkbox
branch compares true and 1 case sensitively and only yes through
toLowerCase. -/
def workerBuildPropertyUpdate (ty : String) (value : String) : Except String PropUpdate :=
  match ty with
  | "title" => .ok (.ptitle value)
  | "rich_text" => .ok (.prichText value)
  | "number" =>
    match jsNumberOfString value with
    | some n => .ok (.pnumber n)
    | none => .error ("Value is not a number: " ++ value)
  | "checkbox" =>
    .ok (.pcheckbox (value == "true" || value == "1" || jsToLowerStr value == "yes"))
  | "select" => .ok (.pselect (if value != "" then some value else none))
  | "status" => .ok (.pstatus (if value != "" then some value else none))
  | "date" => .ok (.pdate (if value != "" then some value else none))
  | _ => .error ("Property type not supported by this endpoint: " ++ ty)

/-- The number branch of the Netlify property-update handler,
src/netlify/functions/notion-scan.mjs lines 197 to 199: the empty string
maps to a null payload, every other value goes through Number() with no NaN
check, so a non-numeric value silently yields a NaN payload (serialized as
null) instead of an error. -/
def netlifyNumberPayload (value : ReqValue) : PropUpdate :=
  if value = .vstr "" then .pnull
  else
    match reqValueToNumber value with
    | some n => .pnumber n
    | none => .pnan

/-- The checkbox branch of the Netlify property-update handler,
src/netlify/functions/notion-scan.mjs lines 200 to 202: Boolean(value), JS
truthiness. -/
def netlifyCheckboxPayload (value : ReqValue) : Bool :=
  reqValueTruthy value

/-! ## The browser client debounce state machine

src/unnamed/part_001: the module-scoped lastValue and lastSeenAt guard the
detection handler (lines 311 to 327) and the module-scoped syncInFlight and
lastSyncedValue guard syncScannedIdToNotion (lines 135 to 173).  Detection
events are processed sequentially; the model counts the POST requests to the
scan endpoint. -/

/-- The module-scoped client state. -/
structure ClientState where
  lastValue : Option String
  lastSeenAt : Nat
  syncInFlight : Bool
  lastSyncedValue : Option String
deriving DecidableEq, Repr

/-- The state at page load. -/
def initClientState : ClientState := ⟨none, 0, false, none⟩

/-- The raw decoded text stripped of one leading and one trailing character,
code.slice(1, -1) in the detection handler. -/
def stripCode (raw : String) : String := String.mk ((raw.data.drop 1).dropLast)

/-- Embeds syncScannedIdToNotion of src/unnamed/part_001 lines 138 to 173:
skip when the trimmed value is empty, when a sync is in flight, or when the
value equals the last synced value; otherwise issue one POST to the scan
endpoint and record the value as last synced (on success and on failure
alike; the in-flight flag is reset by the finally block).  The returned
number counts the POSTs issued. -/
def syncScannedIdToNotion (st : ClientState) (scannedId : String) : ClientState × Nat :=
  let value := jsTrimStr scannedId
  if value = "" then (st, 0)
  else if st.syncInFlight then (st, 0)
  else if st.lastSyncedValue = some value then (st, 0)
  else ({ st with lastSyncedValue := some value, syncInFlight := false }, 1)

/-- Embeds the detection handler of src/unnamed/part_001 lines 311 to 327:
strip the decoded text, drop empty codes, drop a repeat of the last value
seen less than 1200 milliseconds ago, otherwise record the value and time
and hand the code to the sync routine. -/
def detectedHandler (st : ClientState) (raw : String) (now : Nat) : ClientState × Nat :=
  let code := stripCode raw
  if code = "" then (st, 0)
  else if st.lastValue = some code ∧ now - st.lastSeenAt < 1200 then (st, 0)
  else syncScannedIdToNotion { st with lastValue := some code, lastSeenAt := now } code

/-- Process a sequence of detection events (decoded text and timestamp) and
count the scan POSTs issued. -/
def runTrace (st : ClientState) : List (String × Nat) → ClientState × Nat
  | [] => (st, 0)
  | (raw, t) :: rest =>
    let step := detectedHandler st raw t
    let tail := runTrace step.1 rest
    (tail.1, step.2 + tail.2)

deriving instance DecidableEq for Except

/-! ## Helper lemmas about whitespace removal -/

/-- Removing whitespace runs is filtering out whitespace characters. -/
theorem removeWsRuns_eq_filter (l : List Char) :
    removeWsRuns l = l.filter (fun c => !jsIsWs c) := by
  induction l with
  | nil => rfl
  | cons c cs ih =>
    by_cases h : jsIsWs c = true
    · simp [removeWsRuns, h, List.filter_cons, ih]
    · simp [removeWsRuns, h, List.filter_cons, ih]

/-- Dropping a leading whitespace run does not change the non-whitespace
characters. -/
theorem filter_not_ws_dropWhile (l : List Char) :
    (l.dropWhile jsIsWs).filter (fun c => !jsIsWs c) = l.filter (fun c => !jsIsWs c) := by
  induction l with
  | nil => rfl
  | cons c cs ih =>
    by_cases h : jsIsWs c = true
    · simp only [List.dropWhile_cons, h, if_true, ih, List.filter_cons]
      simp [h]
    · simp [List.dropWhile_cons, h]

/-- Trimming does not change the non-whitespace characters. -/
theorem filter_not_ws_trim (l : List Char) :
    (jsTrimList l).filter (fun c => !jsIsWs c) = l.filter (fun c => !jsIsWs c) := by
  unfold jsTrimList
  rw [List.filter_reverse, filter_not_ws_dropWhile, List.filter_reverse,
    List.reverse_reverse, filter_not_ws_dropWhile]

/-! ## Helper lemmas about splitting on spaces -/

/-- Splitting always yields at least one part. -/
theorem splitSpace_ne_nil (l : List Char) : splitSpace l ≠ [] := by
  cases l with
  | nil => simp [splitSpace]
  | cons c cs =>
    by_cases h : c = spaceChar
    · simp [splitSpace, h]
    · simp only [splitSpace, h, if_false]
      cases hs : splitSpace cs <;> simp

/-- Joining the parts with single spaces reconstructs the input. -/
theorem joinParts_splitSpace (l : List Char) : joinParts (splitSpace l) = l := by
  induction l with
  | nil => rfl
  | cons c cs ih =>
    by_cases h : c = spaceChar
    · subst h
      have h1 : splitSpace (spaceChar :: cs) = [] :: splitSpace cs := by simp [splitSpace]
      rw [h1]
      cases hs : splitSpace cs with
      | nil => exact absurd hs (splitSpace_ne_nil cs)
      | cons p ps =>
        rw [hs] at ih
        rw [show joinParts ([] :: p :: ps) = spaceChar :: joinParts (p :: ps) from rfl, ih]
    · cases hs : splitSpace cs with
      | nil => exact absurd hs (splitSpace_ne_nil cs)
      | cons p ps =>
        have h2 : splitSpace (c :: cs) = (c :: p) :: ps := by simp [splitSpace, h, hs]
        rw [h2]
        rw [hs] at ih
        cases ps with
        | nil => simpa [joinParts] using congrArg (c :: ·) ih
        | cons q qs =>
          rw [show joinParts ((c :: p) :: q :: qs)
              = (c :: p) ++ spaceChar :: joinParts (q :: qs) from rfl]
          rw [show joinParts (p :: q :: qs) = p ++ spaceChar :: joinParts (q :: qs) from rfl] at ih
          simpa using ih

/-- No part produced by splitting contains a space. -/
theorem mem_splitSpace_no_space {l p : List Char} (hp : p ∈ splitSpace l) :
    spaceChar ∉ p := by
  induction l generalizing p with
  | nil =>
    simp [splitSpace] at hp
    subst hp; simp
  | cons c cs ih =>
    by_cases h : c = spaceChar
    · subst h
      have h1 : splitSpace (spaceChar :: cs) = [] :: splitSpace cs := by simp [splitSpace]
      rw [h1] at hp
      rcases List.mem_cons.mp hp with h1 | h1
      · subst h1; simp
      · exact ih h1
    · cases hs : splitSpace cs with
      | nil => exact absurd hs (splitSpace_ne_nil cs)
      | cons q qs =>
        have h2 : splitSpace (c :: cs) = (c :: q) :: qs := by simp [splitSpace, h, hs]
        rw [h2] at hp
        rcases List.mem_cons.mp hp with h1 | h1
        · subst h1
          intro hmem
          rcases List.mem_cons.mp hmem with h3 | h3
          · exact h h3.symm
          · exact ih (by rw [hs]; exact List.mem_cons_self q qs) h3
        · exact ih (by rw [hs]; exact List.mem_cons_of_mem q h1)

/-- A space-free input splits into the single part equal to itself. -/
theorem splitSpace_of_no_space {l : List Char} (h : spaceChar ∉ l) :
    splitSpace l = [l] := by
  induction l with
  | nil => rfl
  | cons c cs ih =>
    have hc : ¬ c = spaceChar := fun he => h (he ▸ List.mem_cons_self c cs)
    have hcs : spaceChar ∉ cs := fun hm => h (List.mem_cons_of_mem c hm)
    simp [splitSpace, hc, ih hcs]

/-- An input containing a space splits into at least two parts. -/
theorem splitSpace_two_of_mem {l : List Char} (h : spaceChar ∈ l) :
    2 ≤ (splitSpace l).length := by
  induction l with
  | nil => simp at h
  | cons c cs ih =>
    by_cases hc : c = spaceChar
    · subst hc
      have h1 : splitSpace (spaceChar :: cs) = [] :: splitSpace cs := by simp [splitSpace]
      rw [h1]
      have h2 : splitSpace cs ≠ [] := splitSpace_ne_nil cs
      have h3 : 0 < (splitSpace cs).length := List.length_pos.mpr h2
      simp only [List.length_cons]
      omega
    · have hcs : spaceChar ∈ cs := by
        rcases List.mem_cons.mp h with h1 | h1
        · exact absurd h1.symm hc
        · exact h1
      cases hs : splitSpace cs with
      | nil => exact absurd hs (splitSpace_ne_nil cs)
      | cons q qs =>
        have h2 : splitSpace (c :: cs) = (c :: q) :: qs := by simp [splitSpace, hc, hs]
        rw [h2]
        have h3 := ih hcs
        rw [hs] at h3
        simpa using h3

/-- Every whitespace character surviving collapse is the single space. -/
theorem mem_collapseWsAux_ws {b : Bool} {l : List Char} {c : Char}
    (hc : c ∈ collapseWsAux b l) (hw : jsIsWs c = true) : c = spaceChar := by
  induction l generalizing b with
  | nil => simp [collapseWsAux] at hc
  | cons d ds ih =>
    by_cases hd : jsIsWs d = true
    · cases b with
      | true =>
        simp only [collapseWsAux, hd, if_true] at hc
        exact ih hc
      | false =>
        simp only [collapseWsAux, hd, if_true, if_false] at hc
        rcases List.mem_cons.mp hc with h1 | h1
        · exact h1
        · exact ih h1
    · simp only [collapseWsAux, hd, if_false] at hc
      rcases List.mem_cons.mp hc with h1 | h1
      · subst h1; exact absurd hw hd
      · exact ih h1

/-- A character of a part occurs in the space-joined whole. -/
theorem mem_joinParts {c : Char} {p : List Char} {pts : List (List Char)}
    (hc : c ∈ p) (hp : p ∈ pts) : c ∈ joinParts pts := by
  induction pts with
  | nil => simp at hp
  | cons q qs ih =>
    rcases List.mem_cons.mp hp with h1 | h1
    · subst h1
      cases qs with
      | nil => simpa [joinParts] using hc
      | cons r rs =>
        rw [show joinParts (p :: r :: rs) = p ++ spaceChar :: joinParts (r :: rs) from rfl]
        exact List.mem_append_left _ hc
    · cases qs with
      | nil => simp at h1
      | cons r rs =>
        have h2 := ih h1
        rw [show joinParts (q :: r :: rs) = q ++ spaceChar :: joinParts (r :: rs) from rfl]
        exact List.mem_append_right _ (List.mem_cons_of_mem _ h2)

/-! ## Claim theorems -/

/-- Claim C7: the title normalization maps " AB  12 " and "AB12" to the same
value "AB12"; in general it removes every whitespace character (leading,
trailing and internal) while leaving all other characters, hence letter
case, unchanged; and it distinguishes "ab12" from "AB12". -/
theorem claim_C7_normalize_whitespace_not_case :
    normalizeForMatch " AB  12 " = "AB12"
    ∧ normalizeForMatch "AB12" = "AB12"
    ∧ (∀ s : String, (normalizeForMatch s).data = s.data.filter (fun c => !jsIsWs c))
    ∧ normalizeForMatch "ab12" ≠ normalizeForMatch "AB12" := by
  refine ⟨by decide, by decide, ?_, by decide⟩
  intro s
  show removeWsRuns (jsTrimList s.data) = _
  rw [removeWsRuns_eq_filter, filter_not_ws_trim]

/-- Claim C10: splitFullName of any input satisfies: the first name contains
no whitespace; an input whose trimmed whitespace-collapsed form is empty
yields two empty names; a space-free collapsed form becomes the first name
with an empty last name; and otherwise first name, a single space and last
name concatenate back to exactly the collapsed form. -/
theorem claim_C10_splitFullName_reconstruction (full : String) :
    (∀ c ∈ (splitFullName full).1.data, jsIsWs c = false)
    ∧ (canonicalFullName full = [] → splitFullName full = ("", ""))
    ∧ (canonicalFullName full ≠ [] → spaceChar ∉ canonicalFullName full →
        splitFullName full = (String.mk (canonicalFullName full), ""))
    ∧ (canonicalFullName full ≠ [] → spaceChar ∈ canonicalFullName full →
        (splitFullName full).1.data ++ spaceChar :: (splitFullName full).2.data
          = canonicalFullName full) := by
  by_cases hempty : canonicalFullName full = []
  · have heq : splitFullName full = ("", "") := by
      simp [splitFullName, hempty]
    refine ⟨?_, fun _ => heq, fun h _ => absurd hempty h, fun h _ => absurd hempty h⟩
    intro c hc
    rw [heq] at hc
    simp at hc
  · have hws : ∀ c ∈ canonicalFullName full, jsIsWs c = true → c = spaceChar := by
      intro c hc hw
      exact mem_collapseWsAux_ws hc hw
    cases hsp : splitSpace (canonicalFullName full) with
    | nil => exact absurd hsp (splitSpace_ne_nil _)
    | cons p ps =>
      have hpmem : p ∈ splitSpace (canonicalFullName full) := by
        rw [hsp]; exact List.mem_cons_self p ps
      have hfirst : ∀ c ∈ p, jsIsWs c = false := by
        intro c hc
        by_contra hw
        have hw2 : jsIsWs c = true := by
          cases h2 : jsIsWs c
          · exact absurd h2 hw
          · rfl
        have hcs : c ∈ canonicalFullName full := by
          rw [← joinParts_splitSpace (canonicalFullName full)]
          exact mem_joinParts hc hpmem
        have := hws c hcs hw2
        subst this
        exact mem_splitSpace_no_space hpmem hc
      cases ps with
      | nil =>
        have heq : splitFullName full = (String.mk p, "") := by
          simp [splitFullName, hempty, hsp]
        refine ⟨?_, fun h => absurd h hempty, ?_, ?_⟩
        · intro c hc
          rw [heq] at hc
          exact hfirst c hc
        · intro _ hnosp
          have h4 := splitSpace_of_no_space hnosp
          rw [h4] at hsp
          have : p = canonicalFullName full := by
            injection hsp with h5 h6
            exact h5.symm
          rw [heq, this]
        · intro _ hsp2
          have h5 := splitSpace_two_of_mem hsp2
          rw [hsp] at h5
          simp at h5
      | cons q qs =>
        have heq : splitFullName full = (String.mk p, String.mk (joinParts (q :: qs))) := by
          simp [splitFullName, hempty, hsp]
        refine ⟨?_, fun h => absurd h hempty, ?_, ?_⟩
        · intro c hc
          rw [heq] at hc
          exact hfirst c hc
        · intro _ hnosp
          have h4 := splitSpace_of_no_space hnosp
          rw [h4] at hsp
          injection hsp with h5 h6
          simp at h6
        · intro _ _
          rw [heq]
          show p ++ spaceChar :: joinParts (q :: qs) = canonicalFullName full
          rw [show p ++ spaceChar :: joinParts (q :: qs)
              = joinParts (p :: q :: qs) from rfl]
          rw [← hsp]
          exact joinParts_splitSpace _

/-- Witness for claim C10 at a concrete multi-token input. -/
theorem claim_C10_witness :
    (canonicalFullName "  John   M  Doe " ≠ []
      ∧ spaceChar ∈ canonicalFullName "  John   M  Doe ")
    ∧ (splitFullName "  John   M  Doe ").1.data ++
        spaceChar :: (splitFullName "  John   M  Doe ").2.data
        = canonicalFullName "  John   M  Doe " :=
  ⟨⟨by decide, by decide⟩,
    (claim_C10_splitFullName_reconstruction "  John   M  Doe ").2.2.2 (by decide) (by decide)⟩

/-! ## Helper lemmas about the store -/

/-- A checkbox update call leaves id, title and url, and therefore the search
summaries, unchanged. -/
theorem summariesOf_applyCall (store : List StorePage) (c : UpdateCall) :
    summariesOf (applyCall store c) = summariesOf store := by
  unfold summariesOf applyCall
  rw [List.map_map]
  apply List.map_congr_left
  intro q _
  by_cases h : q.id = c.pageId ∧ c.propertyName = "2025-WD"
  · simp [Function.comp, h, summaryOf]
  · simp [Function.comp, h]

/-- Applying the same update call twice equals applying it once. -/
theorem applyCall_idem (store : List StorePage) (c : UpdateCall) :
    applyCall (applyCall store c) c = applyCall store c := by
  unfold applyCall
  rw [List.map_map]
  apply List.map_congr_left
  intro q _
  by_cases h : q.id = c.pageId ∧ c.propertyName = "2025-WD"
  · simp [Function.comp, h]
  · simp [Function.comp, h]

/-- Claim C1: with zero exact-title matches the scan returns 404 carrying the
raw result count and issues no update call; with two or more it returns 409
listing every match and issues no update call; an update call is issued
exactly when there is exactly one exact-title match. -/
theorem claim_C1_match_disambiguation (scannedId : String) (results : List PageSummary) :
    (exactMatchesOf scannedId results = [] →
      scanResolve scannedId results = .notFound results.length
      ∧ statusOf (scanResolve scannedId results) = 404
      ∧ updateCallsOf (scanResolve scannedId results) = [])
    ∧ (2 ≤ (exactMatchesOf scannedId results).length →
      scanResolve scannedId results = .ambiguous (exactMatchesOf scannedId results)
      ∧ statusOf (scanResolve scannedId results) = 409
      ∧ updateCallsOf (scanResolve scannedId results) = [])
    ∧ (updateCallsOf (scanResolve scannedId results) ≠ []
        ↔ (exactMatchesOf scannedId results).length = 1) := by
  rcases h : exactMatchesOf scannedId results with _ | ⟨p, _ | ⟨q, rest⟩⟩ <;>
    simp [scanResolve, h, statusOf, updateCallsOf]

/-- Witness for claim C1 at a concrete ambiguous input. -/
theorem claim_C1_witness :
    2 ≤ (exactMatchesOf "77" [⟨"p1", "77", "u1"⟩, ⟨"p2", " 7 7", "u2"⟩]).length
    ∧ (scanResolve "77" [⟨"p1", "77", "u1"⟩, ⟨"p2", " 7 7", "u2"⟩]
        = .ambiguous (exactMatchesOf "77" [⟨"p1", "77", "u1"⟩, ⟨"p2", " 7 7", "u2"⟩])
      ∧ statusOf (scanResolve "77" [⟨"p1", "77", "u1"⟩, ⟨"p2", " 7 7", "u2"⟩]) = 409
      ∧ updateCallsOf (scanResolve "77" [⟨"p1", "77", "u1"⟩, ⟨"p2", " 7 7", "u2"⟩]) = []) :=
  ⟨by decide,
    (claim_C1_match_disambiguation "77" [⟨"p1", "77", "u1"⟩, ⟨"p2", " 7 7", "u2"⟩]).2.1
      (by decide)⟩

/-- Claim C3: a scan that resolves to a unique page issues the constant
update payload setting 2025-WD to true (independent of the current checkbox
value), a second scan over the updated store still resolves to the same page
with status 200, the second scan leaves the store unchanged, and the
checkbox of the matched page is true after the first scan. -/
theorem claim_C3_scan_idempotent (scannedId : String) (store : List StorePage)
    (p : PageSummary) (h : (scanStore scannedId store).1 = .ok p) :
    updateCallsOf (scanStore scannedId store).1 = [⟨p.id, "2025-WD", true⟩]
    ∧ (scanStore scannedId (scanStore scannedId store).2).1 = .ok p
    ∧ statusOf (scanStore scannedId (scanStore scannedId store).2).1 = 200
    ∧ (scanStore scannedId (scanStore scannedId store).2).2 = (scanStore scannedId store).2
    ∧ (∀ q ∈ (scanStore scannedId store).2, q.id = p.id → q.wdChecked = true) := by
  have h1 : scanResolve scannedId (summariesOf store) = .ok p := h
  have hst1 : (scanStore scannedId store).2 = applyCall store ⟨p.id, "2025-WD", true⟩ := by
    show (updateCallsOf (scanResolve scannedId (summariesOf store))).foldl applyCall store = _
    rw [h1]
    rfl
  have hsum : summariesOf (applyCall store ⟨p.id, "2025-WD", true⟩) = summariesOf store :=
    summariesOf_applyCall _ _
  have h2 : (scanStore scannedId (scanStore scannedId store).2).1 = .ok p := by
    show scanResolve scannedId (summariesOf (scanStore scannedId store).2) = .ok p
    rw [hst1, hsum, h1]
  refine ⟨?_, h2, ?_, ?_, ?_⟩
  · show updateCallsOf (scanResolve scannedId (summariesOf store)) = _
    rw [h1]
    rfl
  · rw [h2]
    rfl
  · have h3 : (scanStore scannedId (scanStore scannedId store).2).2
        = applyCall (applyCall store ⟨p.id, "2025-WD", true⟩) ⟨p.id, "2025-WD", true⟩ := by
      show (updateCallsOf (scanResolve scannedId
          (summariesOf (scanStore scannedId store).2))).foldl applyCall
          (scanStore scannedId store).2 = _
      rw [hst1, hsum, h1]
      rfl
    rw [h3, applyCall_idem, ← hst1]
  · intro q hq hid
    rw [hst1] at hq
    unfold applyCall at hq
    rcases List.mem_map.mp hq with ⟨q0, _, hfq⟩
    by_cases hcond : q0.id = (⟨p.id, "2025-WD", true⟩ : UpdateCall).pageId
        ∧ (⟨p.id, "2025-WD", true⟩ : UpdateCall).propertyName = "2025-WD"
    · rw [if_pos hcond] at hfq
      rw [← hfq]
    · rw [if_neg hcond] at hfq
      subst hfq
      exact absurd ⟨hid, rfl⟩ hcond

/-- Witness for claim C3 at a concrete one-page store. -/
theorem claim_C3_witness :
    (scanStore "12345678" [⟨"p1", "12345678", "u", false⟩]).1
        = .ok ⟨"p1", "12345678", "u"⟩
    ∧ (scanStore "12345678" ((scanStore "12345678" [⟨"p1", "12345678", "u", false⟩]).2)).2
        = (scanStore "12345678" [⟨"p1", "12345678", "u", false⟩]).2 :=
  ⟨by decide,
    (claim_C3_scan_idempotent "12345678" [⟨"p1", "12345678", "u", false⟩]
      ⟨"p1", "12345678", "u"⟩ (by decide)).2.2.2.1⟩

/-- Claim C5: the number coercion of the worker and standalone-server codec
fails explicitly on "abc" and yields the numeric payload 42 on "42"; the
Netlify property-update number branch instead silently yields a NaN payload
on "abc" and a null payload on the empty string, never an error, so the
claimed behavior does not hold on that backend variant. -/
theorem claim_C5_number_coercion :
    workerBuildPropertyUpdate "number" "abc" = .error "Value is not a number: abc"
    ∧ workerBuildPropertyUpdate "number" "42" = .ok (.pnumber 42)
    ∧ serverBuildPropertyUpdate "number" (.vstr "abc")
        = .error "Value is not a number: abc"
    ∧ serverBuildPropertyUpdate "number" (.vstr "42") = .ok (.pnumber 42)
    ∧ netlifyNumberPayload (.vstr "abc") = .pnan
    ∧ netlifyNumberPayload (.vstr "42") = .pnumber 42
    ∧ netlifyNumberPayload (.vstr "") = .pnull := by
  refine ⟨by decide, by decide, by decide, by decide, by decide, by decide, by decide⟩

/-- Counterexample for claim C6: the worker codec maps the string "TRUE",
which is case-insensitively equal to "true", to checkbox false, and the
Netlify checkbox branch maps the string "no" to checkbox true; so the
claimed coercion does not hold on every backend variant. -/
theorem claim_C6_counterexample :
    jsToLowerStr "TRUE" = "true"
    ∧ workerBuildPropertyUpdate "checkbox" "TRUE" = .ok (.pcheckbox false)
    ∧ netlifyCheckboxPayload (.vstr "no") = true := by
  refine ⟨by decide, by decide, by decide⟩

/-- Claim C6 as amended: on the standalone-server codec of
src/server/index.mjs (both the inline express handler and its
buildPropertyUpdate), over boolean and string request values, the checkbox
coercion yields true exactly when the value is the boolean true or a string
whose lowercasing is "true", "1" or "yes"; every other input yields false. -/
theorem claim_C6_checkbox_coercion (v : ReqValue) :
    serverCheckboxCoerce v = true
      ↔ (v = .vbool true
        ∨ ∃ s, v = .vstr s
          ∧ (jsToLowerStr s = "true" ∨ jsToLowerStr s = "1" ∨ jsToLowerStr s = "yes")) := by
  cases v with
  | vbool b =>
    cases b <;> simp [serverCheckboxCoerce]
  | vstr s =>
    simp only [serverCheckboxCoerce, reqValueToString]
    constructor
    · intro h
      right
      refine ⟨s, rfl, ?_⟩
      rcases Bool.or_eq_true_iff.mp h with h1 | h1
      · rcases Bool.or_eq_true_iff.mp h1 with h2 | h2
        · exact Or.inl (eq_of_beq h2)
        · exact Or.inr (Or.inl (eq_of_beq h2))
      · exact Or.inr (Or.inr (eq_of_beq h1))
    · rintro (h | ⟨s2, hs2, h⟩)
      · exact absurd h (by simp)
      · injection hs2 with hs3
        subst hs3
        rcases h with h | h | h <;> simp [h]

/-- Counterexample for claim C2: the 200 scan response of the standalone
server and of the original Netlify scan function carries no firstName field,
while the worker response does, so the success shape is not the same on all
three backend variants. -/
theorem claim_C2_counterexample :
    "firstName" ∈ (workerScanOkBody "08123456" "p1" "08123456" "A" "B" "A B" "D"
        false Json.jnull).map Prod.fst
    ∧ "firstName" ∉ (serverScanOkBody "08123456" "p1" "08123456").map Prod.fst
    ∧ "firstName" ∉ (netlifyScanOkBody "08123456" "p1" "08123456").map Prod.fst := by
  refine ⟨by decide, by decide, by decide⟩

/-- Claim C2 as amended: the worker 200 scan body contains ok, scannedId,
pageId, title, firstName, lastName, fullName and doc, carries
debugProperties exactly when debug is set, and coincides with the extended
Netlify scan body; the standalone server and the original Netlify scan
function return only ok, scannedId, pageId and title, so the shape is not
identical across the backend variants. -/
theorem claim_C2_success_shape (scannedId pageId title firstName lastName fullName doc : String)
    (debug : Bool) (debugProperties : Json) :
    (["ok", "scannedId", "pageId", "title", "firstName", "lastName", "fullName",
        "doc"].all (fun k =>
          (workerScanOkBody scannedId pageId title firstName lastName fullName doc
            debug debugProperties).map Prod.fst |>.contains k) = true)
    ∧ ("debugProperties" ∈ (workerScanOkBody scannedId pageId title firstName lastName
        fullName doc debug debugProperties).map Prod.fst ↔ debug = true)
    ∧ workerScanOkBody scannedId pageId title firstName lastName fullName doc
        debug debugProperties
      = netlifyScanV2OkBody scannedId pageId title firstName lastName fullName doc
        debug debugProperties
    ∧ (serverScanOkBody scannedId pageId title).map Prod.fst
        = ["ok", "scannedId", "pageId", "title"]
    ∧ (netlifyScanOkBody scannedId pageId title).map Prod.fst
        = ["ok", "scannedId", "pageId", "title"] := by
  cases debug <;>
    simp [workerScanOkBody, netlifyScanV2OkBody, serverScanOkBody, netlifyScanOkBody]

/-- Counterexample for claim C4: two identical decoded values 2000
milliseconds apart, from a fresh client, issue one scan POST, not two: the
last-synced-value memo suppresses the second submission even outside the
1200 millisecond window. -/
theorem claim_C4_counterexample :
    (runTrace initClientState [("XAX", 0), ("XAX", 2000)]).2 = 1
    ∧ (runTrace initClientState [("XAX", 0), ("XAX", 2000)]).2 ≠ 2 := by
  refine ⟨by decide, by decide⟩

/-- Claim C4 as amended: from a fresh client, two detection events with the
same decoded value issue exactly one scan POST whatever their spacing in
time: within 1200 milliseconds the handler debounce drops the second event,
and beyond it the last-synced-value memo drops the second submission. -/
theorem claim_C4_debounce_single_sync (raw : String) (t1 t2 : Nat)
    (h : jsTrimStr (stripCode raw) ≠ "") :
    (runTrace initClientState [(raw, t1), (raw, t2)]).2 = 1 := by
  have hcode : stripCode raw ≠ "" := by
    intro he
    rw [he] at h
    exact h rfl
  by_cases hlt : t2 - t1 < 1200 <;>
    simp [runTrace, detectedHandler, syncScannedIdToNotion, initClientState, hcode, h, hlt]

/-- Witness for claim C4 at a concrete pair of far-apart events. -/
theorem claim_C4_witness :
    jsTrimStr (stripCode "XBX") ≠ ""
    ∧ (runTrace initClientState [("XBX", 5), ("XBX", 9000)]).2 = 1 :=
  ⟨by decide, claim_C4_debounce_single_sync "XBX" 5 9000 (by decide)⟩

/-! ## Helper lemmas about candidate resolution -/

/-- Keys that match no candidate are skipped. -/
theorem getPropertyByCandidates_prefix_skip (l1 l2 : List (String × Json))
    (cands : List String)
    (hneg : ∀ kv2 ∈ l1, (cands.map normalizeKey).contains (normalizeKey kv2.1) = false) :
    getPropertyByCandidates (l1 ++ l2) cands = getPropertyByCandidates l2 cands := by
  induction l1 with
  | nil => rfl
  | cons a l1i ih =>
    have ha := hneg a (List.mem_cons_self a l1i)
    show ((((a :: l1i) ++ l2).find?
        (fun kv => (cands.map normalizeKey).contains (normalizeKey kv.1))).map Prod.snd)
      = getPropertyByCandidates l2 cands
    rw [List.cons_append, List.find?_cons_of_neg _ (by rw [ha]; exact Bool.false_ne_true)]
    exact ih (fun kv2 hm => hneg kv2 (List.mem_cons_of_mem a hm))

/-- The first matching key in property-map order wins. -/
theorem getPropertyByCandidates_first_match (l1 l2 : List (String × Json))
    (kv : String × Json) (cands : List String)
    (hneg : ∀ kv2 ∈ l1, (cands.map normalizeKey).contains (normalizeKey kv2.1) = false)
    (hpos : (cands.map normalizeKey).contains (normalizeKey kv.1) = true) :
    getPropertyByCandidates (l1 ++ kv :: l2) cands = some kv.2 := by
  rw [getPropertyByCandidates_prefix_skip l1 (kv :: l2) cands hneg]
  show (((kv :: l2).find?
      (fun kv2 => (cands.map normalizeKey).contains (normalizeKey kv2.1))).map Prod.snd)
    = some kv.2
  have hf : (kv :: l2).find?
      (fun kv2 => (cands.map normalizeKey).contains (normalizeKey kv2.1)) = some kv :=
    List.find?_cons_of_pos _ hpos
  rw [hf]
  rfl

/-- Counterexample for claim C8: with properties listed as Last Name then
First Name and candidates listed as first name then last name, resolution
returns the Last Name value: property-map key order, not candidate list
order, is the priority order. -/
theorem claim_C8_counterexample :
    getPropertyByCandidates
      [("Last Name", Json.jstr "Doe"), ("First Name", Json.jstr "John")]
      ["first name", "last name"] = some (Json.jstr "Doe")
    ∧ Json.jstr "Doe" ≠ Json.jstr "John" := by
  constructor
  · rfl
  · intro h
    injection h with h2
    exact absurd h2 (by decide)

/-- Claim C8 as amended: the keys "First Name", "first_name" and "FIRSTNAME"
all normalize to "firstname", so for every property map the three resolve
identically; and when several properties match the candidate set, the first
matching key in the property map key order wins, the candidate list order
being irrelevant because candidates act as an unordered set. -/
theorem claim_C8_candidate_resolution :
    (normalizeKey "First Name" = "firstname"
      ∧ normalizeKey "first_name" = "firstname"
      ∧ normalizeKey "FIRSTNAME" = "firstname")
    ∧ (∀ props : List (String × Json),
        getPropertyByCandidates props ["First Name"]
          = getPropertyByCandidates props ["first_name"]
        ∧ getPropertyByCandidates props ["first_name"]
          = getPropertyByCandidates props ["FIRSTNAME"])
    ∧ (∀ (l1 l2 : List (String × Json)) (kv : String × Json) (cands : List String),
        (∀ kv2 ∈ l1, (cands.map normalizeKey).contains (normalizeKey kv2.1) = false) →
        (cands.map normalizeKey).contains (normalizeKey kv.1) = true →
        getPropertyByCandidates (l1 ++ kv :: l2) cands = some kv.2) := by
  refine ⟨⟨by decide, by decide, by decide⟩, ?_, ?_⟩
  · intro props
    have e1 : normalizeKey "First Name" = "firstname" := by decide
    have e2 : normalizeKey "first_name" = "firstname" := by decide
    have e3 : normalizeKey "FIRSTNAME" = "firstname" := by decide
    constructor <;> simp only [getPropertyByCandidates, List.map, e1, e2, e3]
  · intro l1 l2 kv cands hneg hpos
    exact getPropertyByCandidates_first_match l1 l2 kv cands hneg hpos

/-- Witness for claim C8 at a concrete property map with a skipped
non-matching key. -/
theorem claim_C8_witness :
    ((∀ kv2 ∈ [(("Doc", Json.jstr "D") : String × Json)],
        ((["first_name"].map normalizeKey).contains (normalizeKey kv2.1)) = false)
      ∧ ((["first_name"].map normalizeKey).contains (normalizeKey "First Name")) = true)
    ∧ getPropertyByCandidates
        ([("Doc", Json.jstr "D")] ++ ("First Name", Json.jstr "John") :: [])
        ["first_name"] = some (Json.jstr "John") :=
  ⟨⟨by decide, by decide⟩,
    (claim_C8_candidate_resolution.2.2 [("Doc", Json.jstr "D")] []
      ("First Name", Json.jstr "John") ["first_name"] (by decide) (by decide))⟩

/-- Claim C9: extraction is total over arbitrary property maps, candidate
lists and fetch outcomes (including a failing fetch and malformed payloads):
its result is always the direct plain text, the fetched items text, or the
empty string; it is empty when no candidate matches; and it is empty when
the matched property yields no text directly and the fetch yields none
either. -/
theorem claim_C9_extractor_total (props : List (String × Json)) (cands : List String)
    (fetched : Option Json) :
    (getPropertyByCandidates props cands = none →
      getCandidatePropertyText props cands fetched = "")
    ∧ (getCandidatePropertyText props cands fetched
          = propertyPlainText ((getPropertyByCandidates props cands).getD Json.jnull)
      ∨ getCandidatePropertyText props cands fetched
          = (match fetched with
             | some items => propertyItemsPlainText items
             | none => "")
      ∨ getCandidatePropertyText props cands fetched = "")
    ∧ ((propertyPlainText ((getPropertyByCandidates props cands).getD Json.jnull) = ""
        ∧ (∀ items, fetched = some items → propertyItemsPlainText items = "")) →
      getCandidatePropertyText props cands fetched = "") := by
  have hnull : propertyPlainText Json.jnull = "" := by
    unfold propertyPlainText
    rfl
  cases hp : getPropertyByCandidates props cands with
  | none =>
    have hres : getCandidatePropertyText props cands fetched = "" := by
      unfold getCandidatePropertyText
      rw [hp]
      simp [Option.getD, hnull]
    exact ⟨fun _ => hres, Or.inr (Or.inr hres), fun _ => hres⟩
  | some p =>
    by_cases hd : propertyPlainText p = ""
    · cases hid : jsonField p "id" with
      | none =>
        have hres : getCandidatePropertyText props cands fetched = "" := by
          unfold getCandidatePropertyText
          rw [hp]
          simp [Option.getD, hd, hid]
        exact ⟨fun hno => Option.noConfusion hno,
          Or.inr (Or.inr hres), fun _ => hres⟩
      | some pid =>
        by_cases ht : jsTruthy pid = true
        · have hres : getCandidatePropertyText props cands fetched
              = (match fetched with
                 | none => ""
                 | some items => propertyItemsPlainText items) := by
            unfold getCandidatePropertyText
            rw [hp]
            simp [Option.getD, hd, hid, ht]
          refine ⟨fun hno => Option.noConfusion hno, ?_, ?_⟩
          · right; left
            rw [hres]
            cases fetched <;> rfl
          · rintro ⟨_, hfetch⟩
            rw [hres]
            cases fetched with
            | none => rfl
            | some items => exact hfetch items rfl
        · have hres : getCandidatePropertyText props cands fetched = "" := by
            unfold getCandidatePropertyText
            rw [hp]
            simp [Option.getD, hd, hid, ht]
          exact ⟨fun hno => Option.noConfusion hno,
            Or.inr (Or.inr hres), fun _ => hres⟩
    · have hres : getCandidatePropertyText props cands fetched = propertyPlainText p := by
        unfold getCandidatePropertyText
        rw [hp]
        simp [Option.getD, hd]
      refine ⟨fun hno => Option.noConfusion hno, Or.inl ?_, ?_⟩
      · rw [hres, Option.getD_some]
      · rintro ⟨hdirect, _⟩
        rw [Option.getD_some] at hdirect
        exact absurd hdirect hd

/-- Witness for claim C9 at an empty property map. -/
theorem claim_C9_witness :
    getPropertyByCandidates [] ["doc"] = none
    ∧ getCandidatePropertyText [] ["doc"] none = "" :=
  ⟨rfl, (claim_C9_extractor_total [] ["doc"] none).1 rfl⟩
